import Mathlib

/-!
Verification of the assignment fetch-and-materialize pipeline of the
ITSC 2214 VS Code extension.

The development shallowly embeds the relevant TypeScript functions:

* the destination-name sanitization
  `label.replace(/[^a-zA-Z0-9- ]/g, '').replace(/\s+/g, '-')`
  used by `downloadAndUnzip`;
* the `fast-xml-parser`-based manifest parsing (`parseTransport`,
  `parseAssignment`, `parseSubmissionRoot`) and the surrounding tree
  provider (`UploadDataProvider.fetchData` / `AsyncTreeDataProvider.refresh`);
* the exclude-pattern merging of `fetchData` and the glob ignore list
  built by `uploadItem`;
* the filesystem side of `downloadAndUnzip` (conflict check, overwrite
  delete, scratch extraction, platform-metadata cleanup, wrapper
  collapse, per-entry move, scratch removal) over an explicit
  directory-tree filesystem model;
* the submission-response handling of `uploadItem` (first-anchor href
  scrape) and the flat-JSON `AssignmentProvider.fetchSite`/`fetchData`.
-/

set_option autoImplicit false

namespace ITSC2214

/-! ## Destination-name sanitization

Embeds `itemData.label.replace(/[^a-zA-Z0-9- ]/g, '').replace(/\s+/g, '-')`
(projectDownload revisions, `downloadAndUnzip`). -/

/-- Characters kept by the first replace: the class `[a-zA-Z0-9- ]`. -/
def isAllowedChar (c : Char) : Bool :=
  ('a' ≤ c && c ≤ 'z') || ('A' ≤ c && c ≤ 'Z') || ('0' ≤ c && c ≤ '9') ||
    c == '-' || c == ' '

/-- The characters matched by the JavaScript regex class `\s`. -/
def jsWhitespaceChars : List Char :=
  [' ', '\t', '\n', '\r', '\x0b', '\x0c',
   ' ', ' ', ' ', ' ', ' ', ' ', ' ',
   ' ', ' ', ' ', ' ', ' ', ' ', ' ',
   ' ', ' ', ' ', '　', '﻿']

def isJsWhitespace (c : Char) : Bool := jsWhitespaceChars.contains c

/-- First replace: `.replace(/[^a-zA-Z0-9- ]/g, '')` deletes every character
outside the class. -/
def stripDisallowed (cs : List Char) : List Char := cs.filter isAllowedChar

/-- Second replace: `.replace(/\s+/g, '-')` — a left-to-right scan emitting a
single `'-'` for each maximal run of `\s` characters.  The `inRun` flag
records whether the previous character was part of a whitespace run whose
hyphen has already been emitted. -/
def collapseRuns : Bool → List Char → List Char
  | _, [] => []
  | inRun, c :: cs =>
    if isJsWhitespace c then
      if inRun then collapseRuns true cs else '-' :: collapseRuns true cs
    else
      c :: collapseRuns false cs

/-- `downloadAndUnzip`'s destination-name derivation:
`label.replace(/[^a-zA-Z0-9- ]/g, '').replace(/\s+/g, '-')`. -/
def sanitize (label : String) : String :=
  ⟨collapseRuns false (stripDisallowed label.data)⟩

theorem length_dropWhile_le (p : Char → Bool) (cs : List Char) :
    (cs.dropWhile p).length ≤ cs.length := by
  induction cs with
  | nil => simp [List.dropWhile]
  | cons c cs ih =>
    rw [List.dropWhile]
    by_cases h : p c = true
    · simp only [h, if_true]
      exact Nat.le_succ_of_le ih
    · simp [h]

/-- Spec-side rendering of the sanitization (for the refinement claim C7):
remove every character outside `[A-Za-z0-9- ]`, then replace every maximal
run of whitespace by a single hyphen, the run being consumed in one step. -/
def collapseRunsSpec : List Char → List Char
  | [] => []
  | c :: cs =>
    if isJsWhitespace c then
      '-' :: collapseRunsSpec (cs.dropWhile isJsWhitespace)
    else
      c :: collapseRunsSpec cs
termination_by l => l.length
decreasing_by
  · simp only [List.length_cons]
    exact Nat.lt_succ_of_le (length_dropWhile_le isJsWhitespace cs)
  · simp

/-- Spec-side sanitization: strip the disallowed characters, then collapse
each maximal whitespace run to one hyphen. -/
def sanitizeSpec (label : String) : String :=
  ⟨collapseRunsSpec (stripDisallowed label.data)⟩

theorem collapseRuns_true_eq (cs : List Char) :
    collapseRuns true cs = collapseRuns false (cs.dropWhile isJsWhitespace) := by
  induction cs with
  | nil => rfl
  | cons c cs ih =>
    by_cases h : isJsWhitespace c = true
    · simp [collapseRuns, h, List.dropWhile, ih]
    · simp [collapseRuns, h, List.dropWhile]

theorem collapseRuns_false_eq_spec (cs : List Char) :
    collapseRuns false cs = collapseRunsSpec cs := by
  have H : ∀ n (cs : List Char), cs.length ≤ n →
      collapseRuns false cs = collapseRunsSpec cs := by
    intro n
    induction n with
    | zero =>
      intro cs h
      rw [List.length_eq_zero.mp (Nat.le_zero.mp h)]
      simp [collapseRuns, collapseRunsSpec]
    | succ n ih =>
      intro cs h
      cases cs with
      | nil => simp [collapseRuns, collapseRunsSpec]
      | cons c cs =>
        by_cases hw : isJsWhitespace c = true
        · rw [collapseRuns, if_pos hw, if_neg (by simp), collapseRuns_true_eq]
          simp only [collapseRunsSpec, if_pos hw]
          rw [ih _ (Nat.le_trans (length_dropWhile_le isJsWhitespace cs)
            (Nat.le_of_succ_le_succ h))]
        · rw [collapseRuns, if_neg hw]
          simp only [collapseRunsSpec, if_neg hw]
          rw [ih _ (Nat.le_of_succ_le_succ h)]
  exact H cs.length cs Nat.le.refl

example : sanitize "A 1!" = "A-1" := rfl
example : sanitize "Lab   3: Stacks & Queues" = "Lab-3-Stacks-Queues" := rfl

theorem mem_collapseRuns {c : Char} :
    ∀ {b : Bool} {cs : List Char}, c ∈ collapseRuns b cs →
      c = '-' ∨ (c ∈ cs ∧ isJsWhitespace c = false) := by
  intro b cs
  induction cs generalizing b with
  | nil => simp [collapseRuns]
  | cons d cs ih =>
    intro hc
    rw [collapseRuns] at hc
    by_cases hw : isJsWhitespace d = true
    · rw [if_pos hw] at hc
      cases b with
      | true =>
        rcases ih hc with h | ⟨h1, h2⟩
        · exact Or.inl h
        · exact Or.inr ⟨List.mem_cons_of_mem _ h1, h2⟩
      | false =>
        simp only [Bool.false_eq_true, if_false, List.mem_cons] at hc
        rcases hc with h | hc
        · exact Or.inl h
        · rcases ih hc with h | ⟨h1, h2⟩
          · exact Or.inl h
          · exact Or.inr ⟨List.mem_cons_of_mem _ h1, h2⟩
    · rw [if_neg hw] at hc
      rcases List.mem_cons.mp hc with h | hc
      · subst h
        exact Or.inr ⟨List.mem_cons_self _ _, Bool.not_eq_true _ |>.mp hw⟩
      · rcases ih hc with h | ⟨h1, h2⟩
        · exact Or.inl h
        · exact Or.inr ⟨List.mem_cons_of_mem _ h1, h2⟩

theorem collapseRuns_of_no_ws {cs : List Char}
    (h : ∀ c ∈ cs, isJsWhitespace c = false) : collapseRuns false cs = cs := by
  induction cs with
  | nil => rfl
  | cons c cs ih =>
    rw [collapseRuns, if_neg (by simp [h c (List.mem_cons_self _ _)]),
      ih fun d hd => h d (List.mem_cons_of_mem _ hd)]

/-- **C7.** For every entry label, the derived destination folder name
(`label.replace(/[^a-zA-Z0-9- ]/g, '').replace(/\s+/g, '-')` in
`downloadAndUnzip`) equals the label with every character outside
`[A-Za-z0-9- ]` removed and then every maximal whitespace run replaced by a
single hyphen, as rendered by `sanitizeSpec`. -/
theorem sanitize_eq_spec_c7 (label : String) :
    sanitize label = sanitizeSpec label := by
  unfold sanitize sanitizeSpec
  rw [collapseRuns_false_eq_spec]

/-- **C8.** The destination-name sanitization is idempotent:
`sanitize (sanitize s) = sanitize s` for every string `s`. -/
theorem sanitize_idempotent_c8 (s : String) :
    sanitize (sanitize s) = sanitize s := by
  unfold sanitize
  have hall : ∀ c ∈ collapseRuns false (stripDisallowed s.data),
      isAllowedChar c = true ∧ isJsWhitespace c = false := by
    intro c hc
    rcases mem_collapseRuns hc with h | ⟨h1, h2⟩
    · subst h
      exact ⟨by decide, by decide⟩
    · exact ⟨(List.mem_filter.mp h1).2, h2⟩
  have h1 : stripDisallowed (collapseRuns false (stripDisallowed s.data)) =
      collapseRuns false (stripDisallowed s.data) :=
    List.filter_eq_self.mpr fun c hc => (hall c hc).1
  show String.mk (collapseRuns false (stripDisallowed
      (String.data ⟨collapseRuns false (stripDisallowed s.data)⟩))) = _
  rw [show String.data ⟨collapseRuns false (stripDisallowed s.data)⟩ =
      collapseRuns false (stripDisallowed s.data) from rfl, h1,
    collapseRuns_of_no_ws fun c hc => (hall c hc).2]

/-! ## JavaScript values and the submission-targets manifest parse

`uploadProvider.ts` parses the manifest with `fast-xml-parser`
(`ignoreAttributes: false`, `isArray` true for every non-attribute), so in
the parsed value every element key maps to an array of nodes and attribute
keys (`@_...`) map to strings. -/

/-- A JavaScript value as seen by the parse functions. -/
inductive JsVal where
  | undefined
  | nullv
  | boolean (b : Bool)
  | num (n : Int)
  | str (s : String)
  | arr (elems : List JsVal)
  | obj (fields : List (String × JsVal))

def lookupField : List (String × JsVal) → String → Option JsVal
  | [], _ => none
  | (k, v) :: fs, key => if k = key then some v else lookupField fs key

/-- JS property access `v[k]`: `undefined` when the key is absent or the value
is not an object.  (On `undefined`/`null` receivers JS would throw; no parse
function reached by the claims performs such an access.) -/
def JsVal.get (v : JsVal) (k : String) : JsVal :=
  match v with
  | .obj fields => (lookupField fields k).getD .undefined
  | _ => .undefined

/-- Coercion of an attribute value to the string the TS type declares.
(`fast-xml-parser` stores attribute values as strings; a missing attribute
would surface as JS `undefined`, which no claim exercises.) -/
def JsVal.asStr : JsVal → String
  | .str s => s
  | _ => ""

/-- The JS exception raised by calling a method of `undefined` (e.g.
`value["param"].map(...)` when the element has no `param` children). -/
inductive JsErr where
  | typeError

abbrev JsM (α : Type) := Except JsErr α

/-- `v.map(f)` for a pure callback: `TypeError` unless `v` is an array. -/
def jsArrMap {α : Type} (v : JsVal) (f : JsVal → α) : JsM (List α) :=
  match v with
  | .arr xs => .ok (xs.map f)
  | _ => .error .typeError

def jsListMapM {α : Type} (f : JsVal → JsM α) : List JsVal → JsM (List α)
  | [] => .ok []
  | x :: xs => do
    let y ← f x
    let ys ← jsListMapM f xs
    pure (y :: ys)

/-- `v.map(f)` for a callback that may itself throw. -/
def jsArrMapM {α : Type} (v : JsVal) (f : JsVal → JsM α) : JsM (List α) :=
  match v with
  | .arr xs => jsListMapM f xs
  | _ => .error .typeError

/-- JS indexing `v[i]`: `TypeError` on `undefined`/`null`, the element (or
`undefined` out of bounds) on an array, `undefined` otherwise. -/
def jsIndex (v : JsVal) (i : Nat) : JsM JsVal :=
  match v with
  | .undefined => .error .typeError
  | .nullv => .error .typeError
  | .arr xs => .ok (xs.getD i .undefined)
  | _ => .ok .undefined

/-! ### The `uploadProvider.ts` data model -/

structure TransportParam where
  name : String
  value : String

structure Transport where
  uri : String
  params : List TransportParam
  fileParams : List TransportParam

/-- Source type `Exclude = { pattern: string }`. -/
structure Exclude where
  pattern : String
deriving DecidableEq

structure Assignment where
  name : String
  excludes : List Exclude
  transport : Transport

structure AssignmentGroup where
  name : String
  assignments : List Assignment

structure SubmissionRoot where
  excludes : List Exclude
  groups : List AssignmentGroup

/-! ### Parse functions (`uploadProvider.ts`) -/

def parseTransportParam (value : JsVal) : TransportParam :=
  ⟨(value.get "@_name").asStr, (value.get "@_value").asStr⟩

/-- `parseTransport`: reads `@_uri` and maps `parseTransportParam` over
`value["param"]` and `value["file-param"]`; the `.map` calls throw when the
children are absent. -/
def parseTransport (value : JsVal) : JsM Transport := do
  let params ← jsArrMap (value.get "param") parseTransportParam
  let fileParams ← jsArrMap (value.get "file-param") parseTransportParam
  pure ⟨(value.get "@_uri").asStr, params, fileParams⟩

def parseExclude (value : JsVal) : Exclude :=
  ⟨(value.get "@_pattern").asStr⟩

/-- `parseAssignment`: `value["exclude"]?.map(parseExclude) ?? []` (optional
chaining tolerates a missing `exclude`), then
`parseTransport(value["transport"][0])`. -/
def parseAssignment (value : JsVal) : JsM Assignment := do
  let excludes ← match value.get "exclude" with
    | .undefined => Except.ok []
    | .nullv => Except.ok []
    | w => jsArrMap w parseExclude
  let t0 ← jsIndex (value.get "transport") 0
  let transport ← parseTransport t0
  pure ⟨(value.get "@_name").asStr, excludes, transport⟩

def parseAssignmentGroup (value : JsVal) : JsM AssignmentGroup := do
  let assignments ← jsArrMapM (value.get "assignment") parseAssignment
  pure ⟨(value.get "@_name").asStr, assignments⟩

def parseSubmissionRoot (value : JsVal) : JsM SubmissionRoot := do
  let st ← jsIndex (value.get "submission-targets") 0
  let excludes ← jsArrMap (st.get "exclude") parseExclude
  let groups ← jsArrMapM (st.get "assignment-group") parseAssignmentGroup
  pure ⟨excludes, groups⟩

/-! ### `UploadDataProvider.fetchData` and `AsyncTreeDataProvider.refresh` -/

/-- A leaf built by `fetchData`: the stored assignment has its excludes
replaced by `[...root.excludes, ...assignment.excludes]`. -/
structure UploadLeaf where
  label : String
  assignment : Assignment

structure UploadGroupItem where
  label : String
  children : List UploadLeaf

def itemAssignment (root : SubmissionRoot) (assignment : Assignment) : Assignment :=
  { assignment with excludes := root.excludes ++ assignment.excludes }

def fetchDataItems (root : SubmissionRoot) : List UploadGroupItem :=
  root.groups.map fun group =>
    ⟨group.name,
      group.assignments.map fun assignment =>
        ⟨assignment.name, itemAssignment root assignment⟩⟩

structure UploadProviderState where
  data : List UploadGroupItem
  targetsErrored : Bool
  targetsLoaded : Bool

/-- `AsyncTreeDataProvider.refresh` on the `UploadDataProvider` (first load):
`beforeLoad` clears both context flags; a successful `fetchData` stores the
items and `afterLoad` sets `targetsLoaded`; a thrown parse error is caught
and routed to `onLoadError`, which keeps `data` empty and raises
`web-CAT.targetsErrored`. -/
def refreshUpload (uploadURL : Option String) (xml : JsVal) : UploadProviderState :=
  match uploadURL with
  | none => ⟨[], false, true⟩
  | some _ =>
    match parseSubmissionRoot xml with
    | .ok root => ⟨fetchDataItems root, false, true⟩
    | .error _ => ⟨[], true, false⟩

/-- An otherwise well-formed submission-targets manifest (in parsed form)
whose single assignment carries the given `<transport>` node. -/
def manifestWithTransport (t : JsVal) : JsVal :=
  .obj [("submission-targets", .arr [.obj
    [("exclude", .arr []),
     ("assignment-group", .arr [.obj
       [("@_name", .str "G"),
        ("assignment", .arr [.obj
          [("@_name", .str "A"), ("transport", .arr [t])]])]])]])]

/-- **C4.** A `<transport>` element with no `param` and no `file-param`
children makes `parseTransport` raise (a reportable parse failure), never an
`ok` with silently empty parameter lists; the raised error is caught by
`refresh`, which reports it through `onLoadError`: the provider ends with no
data, `targetsErrored` set and `targetsLoaded` unset, rather than crashing
or presenting an empty transport. -/
theorem transport_missing_params_errors_c4 (t : JsVal)
    (hp : t.get "param" = .undefined) (_hf : t.get "file-param" = .undefined) :
    parseTransport t = .error .typeError ∧
    ∀ url : String,
      refreshUpload (some url) (manifestWithTransport t) = ⟨[], true, false⟩ := by
  have h1 : parseTransport t = .error .typeError := by
    simp [parseTransport, jsArrMap, hp, Bind.bind, Except.bind]
  refine ⟨h1, fun url => ?_⟩
  simp [refreshUpload, parseSubmissionRoot, manifestWithTransport, jsIndex,
    jsArrMap, jsArrMapM, jsListMapM, parseAssignmentGroup, parseAssignment,
    JsVal.get, lookupField, h1, Bind.bind, Except.bind]

/-- Concrete instance for C4: a transport node carrying only a `@_uri`
attribute (no `param`, no `file-param` children). -/
theorem transport_missing_params_errors_c4_witness :
    parseTransport (.obj [("@_uri", .str "https://x/submit")])
        = .error .typeError ∧
      refreshUpload (some "https://x/targets")
        (manifestWithTransport (.obj [("@_uri", .str "https://x/submit")]))
        = ⟨[], true, false⟩ := by
  have h := transport_missing_params_errors_c4
    (.obj [("@_uri", .str "https://x/submit")]) rfl rfl
  exact ⟨h.1, h.2 "https://x/targets"⟩

/-! ### Exclude patterns (`fetchData` merge and `uploadItem` glob ignore) -/

/-- The fixed built-in cloud-document ignore patterns appended by
`uploadItem` to the glob `ignore` array. -/
def builtinCloudDocPatterns : List String :=
  ["*.gdoc", "*.gslides", "*.gsheet", "*.gdraw", "*.gtable", "*.gform"]

/-- The glob `ignore` array built by `uploadItem`:
`[...assignment.excludes.map(x => x.pattern), "*.gdoc", ...]`. -/
def uploadIgnorePatterns (assignment : Assignment) : List String :=
  assignment.excludes.map (·.pattern) ++ builtinCloudDocPatterns

/-- The exclude patterns contributed by an enclosing assignment group.  The
parsed `AssignmentGroup` type carries only a name and the assignment list —
no pattern field — so a group contributes none. -/
def groupExcludePatterns (_group : AssignmentGroup) : List String := []

/-- A file is excluded when some pattern of the ignore list matches it;
`matchGlob` abstracts the glob library's pattern matching. -/
def excludedBy (pats : List String) (matchGlob : String → String → Bool)
    (file : String) : Bool :=
  pats.any fun p => matchGlob p file

/-- **C5.** For every leaf used by the submission packager, the effective
exclude set (the `uploadItem` ignore list over the assignment stored by
`fetchData`) excludes exactly the files matched by root patterns ∪
group patterns ∪ entry patterns ∪ the built-in cloud-document patterns;
and the union is functionally idempotent: deduplicating a pattern list
never changes which files are excluded. -/
theorem effective_excludes_union_c5 (root : SubmissionRoot)
    (group : AssignmentGroup) (assignment : Assignment)
    (matchGlob : String → String → Bool) (file : String) :
    (excludedBy (uploadIgnorePatterns (itemAssignment root assignment))
        matchGlob file
      = (excludedBy (root.excludes.map (·.pattern)) matchGlob file
        || excludedBy (groupExcludePatterns group) matchGlob file
        || excludedBy (assignment.excludes.map (·.pattern)) matchGlob file
        || excludedBy builtinCloudDocPatterns matchGlob file))
    ∧ ∀ pats : List String,
        excludedBy pats.dedup matchGlob file = excludedBy pats matchGlob file := by
  constructor
  · simp [excludedBy, uploadIgnorePatterns, itemAssignment,
      groupExcludePatterns, List.any_append, Bool.or_assoc]
  · intro pats
    simp only [excludedBy]
    apply Bool.eq_iff_iff.mpr
    simp [List.any_eq_true, List.mem_dedup]

/-! ## Filesystem model for `downloadAndUnzip` (projectDownload.ts)

A filesystem is a tree of directories and files; a path is the list of its
components.  The operations below model the Node `fs` calls used by
`downloadAndUnzip`: `existsSync`, `mkdirSync {recursive}`, `rmSync
{recursive, force}`, `readdirSync`, `statSync(...).isDirectory()`, and
`renameSync`. -/

inductive FsNode where
  | file (content : String)
  | dir (entries : List (String × FsNode))

abbrev Path := List String

def lookupEntry : List (String × FsNode) → String → Option FsNode
  | [], _ => none
  | (k, v) :: es, name => if k = name then some v else lookupEntry es name

def setEntry : List (String × FsNode) → String → FsNode → List (String × FsNode)
  | [], name, n => [(name, n)]
  | (k, v) :: es, name, n =>
    if k = name then (name, n) :: es else (k, v) :: setEntry es name n

def eraseEntry (es : List (String × FsNode)) (name : String) :
    List (String × FsNode) :=
  es.filter fun e => !(e.1 == name)

def FsNode.lookup : FsNode → Path → Option FsNode
  | n, [] => some n
  | n, k :: p =>
    match n with
    | .file _ => none
    | .dir es =>
      match lookupEntry es k with
      | some c => FsNode.lookup c p
      | none => none

/-- `fs.existsSync`. -/
def FsNode.pathExists (fs : FsNode) (p : Path) : Bool :=
  (fs.lookup p).isSome

/-- `fs.statSync(p).isDirectory()` (false also when the path is missing). -/
def FsNode.isDirAt (fs : FsNode) (p : Path) : Bool :=
  match fs.lookup p with
  | some (.dir _) => true
  | _ => false

/-- `fs.readdirSync` (empty on a missing path or a file, a case the code
never reaches). -/
def FsNode.readdir (fs : FsNode) (p : Path) : List String :=
  match fs.lookup p with
  | some (.dir es) => es.map Prod.fst
  | _ => []

/-- `fs.mkdirSync(p, {recursive: true})` / placing a node: missing
intermediate directories are created; if a traversal component is an
existing file the operation leaves the tree unchanged (the real call would
throw `ENOTDIR`; no claim exercises that situation). -/
def FsNode.setNode : FsNode → Path → FsNode → FsNode
  | _, [], new => new
  | n, k :: p, new =>
    match n with
    | .file c => .file c
    | .dir es =>
      let child := match lookupEntry es k with
        | some c => c
        | none => .dir []
      .dir (setEntry es k (FsNode.setNode child p new))

/-- `fs.rmSync(p, {recursive: true, force: true})`: removes the subtree at
`p`; a missing path is a no-op (`force`). -/
def FsNode.removeNode : FsNode → Path → FsNode
  | n, [] => n
  | n, [k] =>
    match n with
    | .file c => .file c
    | .dir es => .dir (eraseEntry es k)
  | n, k :: p =>
    match n with
    | .file c => .file c
    | .dir es =>
      match lookupEntry es k with
      | some c => .dir (setEntry es k (FsNode.removeNode c p))
      | none => .dir es

/-- `fs.renameSync(src, dst)` on a directory entry: the node is detached
from `src` and placed at `dst`. -/
def renameNode (fs : FsNode) (src dst : Path) : FsNode :=
  match fs.lookup src with
  | some node => (fs.removeNode src).setNode dst node
  | none => fs

/-- `path.join(dir, name)`: Node drops an empty segment. -/
def joinName (dir : Path) (name : String) : Path :=
  if name = "" then dir else dir ++ [name]

def charsLeadWith : List Char → List Char → Bool
  | _, [] => true
  | [], _ :: _ => false
  | c :: cs, d :: ds => c == d && charsLeadWith cs ds

/-- JS `s.startsWith(pre)` (`file.startsWith('._')` in the finish handler). -/
def jsStartsWith (s pre : String) : Bool :=
  charsLeadWith s.data pre.data

/-! ### The `downloadAndUnzip` run model

`downloadAndUnzip(itemData, context)` of projectDownload.ts (the revision
that extracts into a scratch directory).  The externally determined
outcomes of a run are collected in `RunEnv`: the user's answer to the
overwrite prompt, whether the archive GET succeeds, what the unzip stream
produces in the scratch directory (`none` models the stream's `error`
event), and the filesystem failures of the `finish` handler's try block —
`renameFailAt = some i` makes the i-th `renameSync` of the move loop throw
and `finalRmOk = false` makes the closing `rmSync(tempDir)` throw; either
exception is caught and rejects the promise with the moves performed so far
left in place. -/

structure RunEnv where
  overwriteChoice : String
  fetchOk : Bool
  extraction : Option (List (String × FsNode))
  renameFailAt : Option Nat
  finalRmOk : Bool

inductive RunOutcome where
  | undefResult
  | rejected
  | okResult (p : Path)

/-- `fs.mkdtempSync(path.join(os.tmpdir(), 'itsc2214-unzip-'))`, modelled as
a fixed fresh name under `/tmp`. -/
def tmpScratchPath : Path := ["tmp", "itsc2214-unzip-0"]

/-- The `renameSync` loop of the finish handler: each rename may throw; when
the i-th one does, the loop stops with the earlier moves already done and
the filesystem at that point is handed to the catch path. -/
def moveFiles (renameFailAt : Option Nat) (projectRoot unzipPath : Path) :
    Nat → List String → FsNode → Except FsNode FsNode
  | _, [], fs => .ok fs
  | i, name :: names, fs =>
    if renameFailAt = some i then .error fs
    else moveFiles renameFailAt projectRoot unzipPath (i + 1) names
      (renameNode fs (projectRoot ++ [name]) (unzipPath ++ [name]))

/-- The tail of the finish handler's try block: run the move loop, then
`rmSync(tempDir)` and resolve; a thrown rename or a failing final `rmSync`
is caught and rejects with the filesystem as it stands. -/
def finishMove (renameFailAt : Option Nat) (finalRmOk : Bool)
    (projectRoot unzipPath : Path) (projectFiles : List String)
    (fs2 : FsNode) : RunOutcome × FsNode :=
  match moveFiles renameFailAt projectRoot unzipPath 0 projectFiles fs2 with
  | .error fsAtThrow => (.rejected, fsAtThrow)
  | .ok fs3 =>
    if finalRmOk then (.okResult unzipPath, fs3.removeNode tmpScratchPath)
    else (.rejected, fs3)

/-- The unzip `finish` handler: read the scratch top level, delete
`__MACOSX`, delete top-level `._*` entries, re-read, collapse a single
top-level wrapper directory, move every child of the project root into
`unzipPath`, and delete the scratch directory; any exception of the try
block rejects the promise. -/
def finishExtraction (env : RunEnv) (fs0 : FsNode) (unzipPath : Path) :
    RunOutcome × FsNode :=
  let top := fs0.readdir tmpScratchPath
  let fs1 := if fs0.pathExists (tmpScratchPath ++ ["__MACOSX"]) then
      fs0.removeNode (tmpScratchPath ++ ["__MACOSX"])
    else fs0
  let fs2 := top.foldl (fun acc name =>
      if jsStartsWith name "._" then acc.removeNode (tmpScratchPath ++ [name])
      else acc) fs1
  let remaining := fs2.readdir tmpScratchPath
  let projectRoot :=
    if remaining.length == 1
        && fs2.isDirAt (tmpScratchPath ++ [remaining.headD ""]) then
      tmpScratchPath ++ [remaining.headD ""]
    else tmpScratchPath
  let projectFiles := fs2.readdir projectRoot
  finishMove env.renameFailAt env.finalRmOk projectRoot unzipPath
    projectFiles fs2

/-- Download + extraction: `mkdirSync(unzipPath)`, the archive GET, the
scratch `mkdtempSync`, and the unzip stream (rejection on its `error`
event, the `finish` handler otherwise). -/
def downloadPhase (env : RunEnv) (fs0 : FsNode) (unzipPath : Path) :
    RunOutcome × FsNode :=
  let fs1 := fs0.setNode unzipPath (.dir [])
  if !env.fetchOk then (.undefResult, fs1)
  else
    let fs2 := fs1.setNode tmpScratchPath (.dir [])
    match env.extraction with
    | none => (.rejected, fs2)
    | some entries =>
      finishExtraction env (fs2.setNode tmpScratchPath (.dir entries)) unzipPath

/-- `downloadAndUnzip` of projectDownload.ts: resolve the target directory
(`<itsc2214Dir>/projects`, created on demand), derive the sanitized
destination, run the conflict prompt (deleting the old destination on an
accepted overwrite), then download and extract. -/
def downloadAndUnzip (env : RunEnv) (itsc2214Dir : Option Path)
    (label : String) (fs : FsNode) : RunOutcome × FsNode :=
  match itsc2214Dir with
  | none => (.undefResult, fs)
  | some base =>
    if !fs.pathExists base then (.undefResult, fs)
    else
      let targetDir := base ++ ["projects"]
      let fs1 := if fs.pathExists targetDir then fs
        else fs.setNode targetDir (.dir [])
      let unzipPath := joinName targetDir (sanitize label)
      if fs1.pathExists unzipPath then
        if env.overwriteChoice ≠ "Yes" then (.undefResult, fs1)
        else downloadPhase env (fs1.removeNode unzipPath) unzipPath
      else downloadPhase env fs1 unzipPath

/-- The destination directory `downloadAndUnzip` derives for an entry:
`path.join(path.join(itsc2214Dir, 'projects'), <sanitized label>)`. -/
def destinationPath (base : Path) (label : String) : Path :=
  joinName (base ++ ["projects"]) (sanitize label)

/-! ### Filesystem lemmas -/

theorem lookup_cons_dir (es : List (String × FsNode)) (k : String) (p : Path) :
    (FsNode.dir es).lookup (k :: p)
      = match lookupEntry es k with
        | some c => c.lookup p
        | none => none := rfl

theorem lookup_cons_file (c : String) (k : String) (p : Path) :
    (FsNode.file c).lookup (k :: p) = none := rfl

theorem setNode_cons_dir (es : List (String × FsNode)) (k : String) (p : Path)
    (new : FsNode) :
    (FsNode.dir es).setNode (k :: p) new
      = .dir (setEntry es k ((match lookupEntry es k with
          | some c => c
          | none => .dir []).setNode p new)) := rfl

theorem removeNode_single_dir (es : List (String × FsNode)) (k : String) :
    (FsNode.dir es).removeNode [k] = .dir (eraseEntry es k) := rfl

theorem removeNode_cons_dir (es : List (String × FsNode)) (k k' : String)
    (p : Path) :
    (FsNode.dir es).removeNode (k :: k' :: p)
      = match lookupEntry es k with
        | some c => .dir (setEntry es k (c.removeNode (k' :: p)))
        | none => .dir es := rfl

theorem lookup_append (p q : Path) :
    ∀ n : FsNode, n.lookup (p ++ q) = (n.lookup p).bind (·.lookup q) := by
  induction p with
  | nil => intro n; rfl
  | cons k p ih =>
    intro n
    cases n with
    | file c => rfl
    | dir es =>
      show FsNode.lookup (.dir es) (k :: (p ++ q)) = _
      rw [lookup_cons_dir, lookup_cons_dir]
      cases lookupEntry es k with
      | none => rfl
      | some c => exact ih c

theorem pathExists_of_append {fs : FsNode} {p q : Path}
    (h : fs.pathExists (p ++ q) = true) : fs.pathExists p = true := by
  unfold FsNode.pathExists at h ⊢
  rw [lookup_append] at h
  cases hp : fs.lookup p with
  | none => rw [hp] at h; simp at h
  | some _ => rfl

theorem lookupEntry_setEntry_self (es : List (String × FsNode)) (k : String)
    (v : FsNode) : lookupEntry (setEntry es k v) k = some v := by
  induction es with
  | nil => simp [setEntry, lookupEntry]
  | cons e es ih =>
    obtain ⟨k', v'⟩ := e
    by_cases h : k' = k
    · simp [setEntry, h, lookupEntry]
    · simp [setEntry, h, lookupEntry, ih]

theorem lookupEntry_setEntry_ne (es : List (String × FsNode)) {a b : String}
    (v : FsNode) (h : a ≠ b) : lookupEntry (setEntry es b v) a = lookupEntry es a := by
  induction es with
  | nil => simp [setEntry, lookupEntry, Ne.symm h]
  | cons e es ih =>
    obtain ⟨k', v'⟩ := e
    by_cases hk : k' = b
    · subst hk
      simp [setEntry, lookupEntry, Ne.symm h]
    · simp [setEntry, hk, lookupEntry, ih]

theorem setEntry_of_lookup_self {es : List (String × FsNode)} {k : String}
    {v : FsNode} (h : lookupEntry es k = some v) : setEntry es k v = es := by
  induction es with
  | nil => simp [lookupEntry] at h
  | cons e es ih =>
    obtain ⟨k', v'⟩ := e
    by_cases hk : k' = k
    · subst hk
      rw [lookupEntry, if_pos rfl] at h
      cases h
      simp [setEntry]
    · rw [lookupEntry, if_neg hk] at h
      simp [setEntry, hk, ih h]

theorem lookupEntry_eraseEntry_self (es : List (String × FsNode)) (k : String) :
    lookupEntry (eraseEntry es k) k = none := by
  induction es with
  | nil => rfl
  | cons e es ih =>
    obtain ⟨k', v'⟩ := e
    by_cases hk : k' = k
    · subst hk
      simpa [eraseEntry, List.filter_cons] using ih
    · simpa [eraseEntry, List.filter_cons, hk, lookupEntry] using ih

/-- Setting into an empty directory always creates the full path. -/
theorem lookup_setNode_empty (p : Path) (v : FsNode) :
    ((FsNode.dir []).setNode p v).lookup p = some v := by
  induction p with
  | nil => rfl
  | cons k p ih =>
    rw [setNode_cons_dir, lookup_cons_dir, lookupEntry_setEntry_self]
    exact ih

/-- `setNode` either places the node (the path then resolves to it) or, when
an existing file blocks the path, leaves the tree unchanged. -/
theorem lookup_setNode_or_id (fs : FsNode) (p : Path) (v : FsNode) :
    ((fs.setNode p v).lookup p = some v) ∨ (fs.setNode p v = fs) := by
  induction p generalizing fs with
  | nil => exact Or.inl rfl
  | cons k p ih =>
    cases fs with
    | file c => exact Or.inr rfl
    | dir es =>
      cases he : lookupEntry es k with
      | none =>
        have hset : (FsNode.dir es).setNode (k :: p) v
            = .dir (setEntry es k ((FsNode.dir []).setNode p v)) := by
          rw [setNode_cons_dir, he]
        refine Or.inl ?_
        rw [hset, lookup_cons_dir, lookupEntry_setEntry_self]
        exact lookup_setNode_empty p v
      | some c =>
        have hset : (FsNode.dir es).setNode (k :: p) v
            = .dir (setEntry es k (c.setNode p v)) := by
          rw [setNode_cons_dir, he]
        rcases ih c with h | h
        · refine Or.inl ?_
          rw [hset, lookup_cons_dir, lookupEntry_setEntry_self]
          exact h
        · refine Or.inr ?_
          rw [hset, h, setEntry_of_lookup_self he]

/-- After `rmSync(p)` the path `p` no longer resolves. -/
theorem lookup_removeNode_self (fs : FsNode) (k : String) (p : Path) :
    (fs.removeNode (k :: p)).lookup (k :: p) = none := by
  induction p generalizing fs k with
  | nil =>
    cases fs with
    | file c => rfl
    | dir es =>
      rw [removeNode_single_dir, lookup_cons_dir, lookupEntry_eraseEntry_self]
  | cons k' p ih =>
    cases fs with
    | file c => rfl
    | dir es =>
      cases he : lookupEntry es k with
      | none =>
        have hrm : (FsNode.dir es).removeNode (k :: k' :: p) = .dir es := by
          rw [removeNode_cons_dir, he]
        rw [hrm, lookup_cons_dir, he]
      | some c =>
        have hrm : (FsNode.dir es).removeNode (k :: k' :: p)
            = .dir (setEntry es k (c.removeNode (k' :: p))) := by
          rw [removeNode_cons_dir, he]
        rw [hrm, lookup_cons_dir, lookupEntry_setEntry_self]
        exact ih c k'

/-- Removing a resolving path and recreating it places the new node. -/
theorem lookup_removeNode_setNode {fs w : FsNode} (v : FsNode)
    {k : String} {p : Path} (h : fs.lookup (k :: p) = some w) :
    (((fs.removeNode (k :: p)).setNode (k :: p) v).lookup (k :: p)) = some v := by
  induction p generalizing fs k with
  | nil =>
    cases fs with
    | file c => rw [lookup_cons_file] at h; cases h
    | dir es =>
      rw [removeNode_single_dir]
      have hset : (FsNode.dir (eraseEntry es k)).setNode [k] v
          = .dir (setEntry (eraseEntry es k) k v) := by
        rw [setNode_cons_dir]
        rfl
      rw [hset, lookup_cons_dir, lookupEntry_setEntry_self]
      rfl
  | cons k' p ih =>
    cases fs with
    | file c => rw [lookup_cons_file] at h; cases h
    | dir es =>
      rw [lookup_cons_dir] at h
      cases he : lookupEntry es k with
      | none => rw [he] at h; exact absurd h (by simp)
      | some c =>
        rw [he] at h
        have hrm : (FsNode.dir es).removeNode (k :: k' :: p)
            = .dir (setEntry es k (c.removeNode (k' :: p))) := by
          rw [removeNode_cons_dir, he]
        rw [hrm]
        have hset : (FsNode.dir (setEntry es k (c.removeNode (k' :: p)))).setNode
              (k :: k' :: p) v
            = .dir (setEntry (setEntry es k (c.removeNode (k' :: p))) k
                ((c.removeNode (k' :: p)).setNode (k' :: p) v)) := by
          rw [setNode_cons_dir, lookupEntry_setEntry_self]
        rw [hset, lookup_cons_dir, lookupEntry_setEntry_self]
        exact ih h

/-- Writes under a different head component do not affect a lookup. -/
theorem lookup_setNode_head_ne (fs : FsNode) {a b : String} (p q : Path)
    (v : FsNode) (h : a ≠ b) :
    ((fs.setNode (b :: q) v).lookup (a :: p)) = fs.lookup (a :: p) := by
  cases fs with
  | file c => rfl
  | dir es =>
    rw [setNode_cons_dir, lookup_cons_dir, lookup_cons_dir,
      lookupEntry_setEntry_ne _ _ h]

/-! ### Claims C1–C3 about `downloadAndUnzip` -/

/-- A typical initial filesystem: the configured `itsc2214` directory with a
`projects` subdirectory already holding a downloaded project `A1`, and an
empty `/tmp`. -/
def demoBaseFs : FsNode :=
  .dir [("base", .dir [("projects",
           .dir [("A1", .dir [("old.txt", .file "old")])])]),
        ("tmp", .dir [])]

/-- **C3.** When the derived destination directory already exists and the
user declines the overwrite prompt, `downloadAndUnzip` returns `undefined`
and the entire filesystem — in particular the existing destination
directory — is byte-for-byte unchanged: no filesystem change at all has been
made up to that point. -/
theorem conflict_decline_unchanged_c3 (env : RunEnv) (base : Path)
    (label : String) (fs : FsNode)
    (hdest : fs.pathExists (destinationPath base label) = true)
    (hchoice : env.overwriteChoice ≠ "Yes") :
    downloadAndUnzip env (some base) label fs = (.undefResult, fs) := by
  have htarget : fs.pathExists (base ++ ["projects"]) = true := by
    by_cases hs : sanitize label = ""
    · simpa [destinationPath, joinName, hs] using hdest
    · have h2 : fs.pathExists ((base ++ ["projects"]) ++ [sanitize label]) = true := by
        simpa [destinationPath, joinName, hs] using hdest
      exact pathExists_of_append h2
  have hbase : fs.pathExists base = true := pathExists_of_append htarget
  have hdest' : fs.pathExists (joinName (base ++ ["projects"]) (sanitize label))
      = true := hdest
  simp [downloadAndUnzip, hbase, htarget, hdest', hchoice]

/-- Concrete instance for C3: declining the overwrite of the existing `A1`
destination returns `undefined` and leaves the filesystem untouched. -/
theorem conflict_decline_unchanged_c3_witness :
    downloadAndUnzip ⟨"No", true, some [], none, true⟩ (some ["base"]) "A1" demoBaseFs
      = (.undefResult, demoBaseFs) :=
  conflict_decline_unchanged_c3 ⟨"No", true, some [], none, true⟩ ["base"] "A1" demoBaseFs
    rfl (by decide)

/-- **C1 counterexample.** A run in which the user accepts the overwrite and
the archive download then fails (`resp.ok` false): the operation returns
`undefined` — a failure after the conflict check — yet the previously
existing destination directory has been deleted and replaced by a freshly
created empty directory.  The destination the user agreed to overwrite is
lost although no replacement tree was placed, refuting the claimed
from-the-caller's-perspective atomicity. -/
theorem materialize_not_atomic_c1_counterexample :
    (downloadAndUnzip ⟨"Yes", false, some [], none, true⟩ (some ["base"]) "A1" demoBaseFs).1
        = .undefResult
    ∧ demoBaseFs.lookup ["base", "projects", "A1"]
        = some (.dir [("old.txt", .file "old")])
    ∧ (downloadAndUnzip ⟨"Yes", false, some [], none, true⟩ (some ["base"]) "A1"
        demoBaseFs).2.lookup ["base", "projects", "A1"] = some (.dir []) :=
  ⟨rfl, rfl, rfl⟩

/-- **C2 counterexample.** A run whose unzip stream fails mid-extraction
(the stream's `error` event): the promise rejects, and the scratch temp
directory created by `mkdtempSync` is still on disk afterwards — there is no
cleanup on this failure path, refuting the claimed guaranteed scratch
release. -/
theorem scratch_left_on_failure_c2_counterexample :
    (downloadAndUnzip ⟨"Yes", true, none, none, true⟩ (some ["base"]) "A1" demoBaseFs).1
        = .rejected
    ∧ (downloadAndUnzip ⟨"Yes", true, none, none, true⟩ (some ["base"]) "A1"
        demoBaseFs).2.lookup tmpScratchPath = some (.dir []) :=
  ⟨rfl, rfl⟩

/-- The derived destination path always starts with the base directory's
head (or with `"projects"` for an empty base), never with `"tmp"` when the
base does not live under `/tmp`. -/
theorem destinationPath_head (base : Path) (label : String)
    (hbase : base.head? ≠ some "tmp") :
    ∃ k rest, destinationPath base label = k :: rest ∧ k ≠ "tmp" := by
  cases base with
  | nil =>
    by_cases hs : sanitize label = ""
    · exact ⟨"projects", [], by simp [destinationPath, joinName, hs], by decide⟩
    · exact ⟨"projects", [sanitize label],
        by simp [destinationPath, joinName, hs], by decide⟩
  | cons b bs =>
    have hb : b ≠ "tmp" := by simpa using hbase
    by_cases hs : sanitize label = ""
    · exact ⟨b, bs ++ ["projects"], by simp [destinationPath, joinName, hs], hb⟩
    · exact ⟨b, bs ++ ["projects"] ++ [sanitize label],
        by simp [destinationPath, joinName, hs], hb⟩

/-- On a `downloadPhase` run that fails in the download or in the unzip
stream — before the finish handler runs — the destination holds whatever
`mkdirSync(unzipPath)` put there: the subsequent scratch-directory write
never touches it. -/
theorem downloadPhase_failure_dest (env : RunEnv) (fs : FsNode) {k : String}
    (rest : Path) (hk : k ≠ "tmp")
    (hpre : env.fetchOk = false ∨ env.extraction = none) :
    (downloadPhase env fs (k :: rest)).2.lookup (k :: rest)
      = (fs.setNode (k :: rest) (.dir [])).lookup (k :: rest) := by
  unfold downloadPhase
  rcases hpre with hf | hx
  · simp [hf]
  · cases hf : env.fetchOk with
    | false => simp [hf]
    | true =>
      simp only [hf, Bool.not_true, Bool.false_eq_true, if_false]
      rw [hx]
      exact lookup_setNode_head_ne _ _ _ _ hk

theorem exists_of_pathExists {fs : FsNode} {p : Path}
    (h : fs.pathExists p = true) : ∃ w, fs.lookup p = some w := by
  unfold FsNode.pathExists at h
  cases hlw : fs.lookup p with
  | none => rw [hlw] at h; simp at h
  | some w => exact ⟨w, rfl⟩

theorem lookup_none_of_pathExists_false {fs : FsNode} {p : Path}
    (h : fs.pathExists p = false) : fs.lookup p = none := by
  unfold FsNode.pathExists at h
  cases hlw : fs.lookup p with
  | none => rfl
  | some w => rw [hlw] at h; simp at h

/-- **C1 (amended).** Downloading and extracting into the scratch directory
keeps partial or corrupt downloaded archive data away from the destination:
on any run of `downloadAndUnzip` that fails in the download (`resp.ok`
false) or in the unzip stream (its `error` event), the destination path
afterwards holds either exactly what it held before the run or a freshly
created empty directory.  (The original claim's stronger guarantees are
refuted by the counterexample: the old tree is deleted and the empty
destination directory created before the download even begins, so such a
failure after an accepted overwrite has already lost the old content; and a
filesystem failure inside the later move loop can additionally leave a
partial replacement tree at the destination.) -/
theorem materialize_failure_dest_c1_amended (env : RunEnv) (base : Path)
    (label : String) (fs : FsNode) (hbase : base.head? ≠ some "tmp")
    (hpre : env.fetchOk = false ∨ env.extraction = none) :
    (downloadAndUnzip env (some base) label fs).2.lookup
        (destinationPath base label)
      = fs.lookup (destinationPath base label)
    ∨ (downloadAndUnzip env (some base) label fs).2.lookup
        (destinationPath base label)
      = some (.dir []) := by
  obtain ⟨k, rest, hdk, hk⟩ := destinationPath_head base label hbase
  have hdk' : joinName (base ++ ["projects"]) (sanitize label) = k :: rest := hdk
  rw [hdk]
  unfold downloadAndUnzip
  by_cases hb : fs.pathExists base = true
  case neg => simp [hb]
  simp only [hb, Bool.not_true, Bool.false_eq_true, if_false]
  rw [hdk']
  by_cases ht : fs.pathExists (base ++ ["projects"]) = true
  · simp only [ht, if_true]
    by_cases hd : fs.pathExists (k :: rest) = true
    · simp only [hd, if_true]
      by_cases hc : env.overwriteChoice = "Yes"
      · simp only [hc, ne_eq, not_true_eq_false, if_false]
        right
        rw [downloadPhase_failure_dest env _ rest hk hpre]
        obtain ⟨w, hw⟩ := exists_of_pathExists hd
        exact lookup_removeNode_setNode _ hw
      · simp only [ne_eq, hc, not_false_eq_true, if_true]
        exact Or.inl trivial
    · simp only [hd, Bool.false_eq_true, if_false]
      rw [downloadPhase_failure_dest env fs rest hk hpre]
      rcases lookup_setNode_or_id fs (k :: rest) (.dir []) with h | h
      · exact Or.inr h
      · rw [h]
        exact Or.inl rfl
  · simp only [ht, Bool.false_eq_true, if_false]
    rcases lookup_setNode_or_id fs (base ++ ["projects"]) (.dir []) with hset | hid
    swap
    · -- the `mkdirSync(targetDir)` was blocked by a file: nothing changed
      rw [hid]
      by_cases hd : fs.pathExists (k :: rest) = true
      · simp only [hd, if_true]
        by_cases hc : env.overwriteChoice = "Yes"
        · simp only [hc, ne_eq, not_true_eq_false, if_false]
          right
          rw [downloadPhase_failure_dest env _ rest hk hpre]
          obtain ⟨w, hw⟩ := exists_of_pathExists hd
          exact lookup_removeNode_setNode _ hw
        · simp only [ne_eq, hc, not_false_eq_true, if_true]
          exact Or.inl trivial
      · simp only [hd, Bool.false_eq_true, if_false]
        rw [downloadPhase_failure_dest env fs rest hk hpre]
        rcases lookup_setNode_or_id fs (k :: rest) (.dir []) with h | h
        · exact Or.inr h
        · rw [h]
          exact Or.inl rfl
    · -- `projects` was created as an empty directory
      by_cases hs : sanitize label = ""
      · -- the destination *is* the just-created `projects` directory
        have htv : joinName (base ++ ["projects"]) (sanitize label)
            = base ++ ["projects"] := by simp [joinName, hs]
        have hdk2 : base ++ ["projects"] = k :: rest := by rw [← htv]; exact hdk'
        rw [hdk2] at hset
        by_cases hd : (fs.setNode (k :: rest) (.dir [])).pathExists (k :: rest)
            = true
        · simp only [hdk2, hd, if_true]
          by_cases hc : env.overwriteChoice = "Yes"
          · simp only [hc, ne_eq, not_true_eq_false, if_false]
            right
            rw [downloadPhase_failure_dest env _ rest hk hpre]
            obtain ⟨w, hw⟩ := exists_of_pathExists hd
            exact lookup_removeNode_setNode _ hw
          · simp only [ne_eq, hc, not_false_eq_true, if_true]
            exact Or.inr hset
        · rw [FsNode.pathExists, hset] at hd
          simp at hd
      · -- destination is one level below the just-created empty `projects`
        have htv : joinName (base ++ ["projects"]) (sanitize label)
            = (base ++ ["projects"]) ++ [sanitize label] := by
          simp [joinName, hs]
        have hdk2 : (base ++ ["projects"]) ++ [sanitize label] = k :: rest := by
          rw [← htv]; exact hdk'
        have hFdest : (fs.setNode (base ++ ["projects"]) (.dir [])).lookup
            (k :: rest) = none := by
          rw [← hdk2, lookup_append, hset]
          rfl
        have hfsdest : fs.lookup (k :: rest) = none := by
          rw [← hdk2, lookup_append,
            lookup_none_of_pathExists_false (by simpa using ht)]
          rfl
        by_cases hd : (fs.setNode (base ++ ["projects"]) (.dir [])).pathExists
            (k :: rest) = true
        · rw [FsNode.pathExists, hFdest] at hd
          simp at hd
        · simp only [hd, Bool.false_eq_true, if_false]
          rw [downloadPhase_failure_dest env _ rest hk hpre]
          rcases lookup_setNode_or_id (fs.setNode (base ++ ["projects"])
              (.dir [])) (k :: rest) (.dir []) with h | h
          · exact Or.inr h
          · rw [h, hFdest, hfsdest]
            exact Or.inl rfl

/-- Concrete instance for C1 (amended): the failed-download run of the
counterexample indeed leaves the destination as the original content or an
empty directory (here: the empty directory). -/
theorem materialize_failure_dest_c1_amended_witness :
    (downloadAndUnzip ⟨"Yes", false, some [], none, true⟩ (some ["base"]) "A1"
        demoBaseFs).2.lookup (destinationPath ["base"] "A1")
      = demoBaseFs.lookup (destinationPath ["base"] "A1")
    ∨ (downloadAndUnzip ⟨"Yes", false, some [], none, true⟩ (some ["base"]) "A1"
        demoBaseFs).2.lookup (destinationPath ["base"] "A1")
      = some (.dir []) :=
  materialize_failure_dest_c1_amended ⟨"Yes", false, some [], none, true⟩ ["base"] "A1"
    demoBaseFs (by decide) (Or.inl rfl)

theorem moveFiles_none (projectRoot unzipPath : Path) (names : List String) :
    ∀ (i : Nat) (fs : FsNode),
    moveFiles none projectRoot unzipPath i names fs
      = .ok (names.foldl (fun acc name =>
          renameNode acc (projectRoot ++ [name]) (unzipPath ++ [name])) fs) := by
  induction names with
  | nil => intro i fs; rfl
  | cons name names ih =>
    intro i fs
    show (if (none : Option Nat) = some i then _ else _) = _
    rw [if_neg (fun h => Option.noConfusion h), List.foldl_cons]
    exact ih (i + 1) _

theorem finishMove_ok_tmp (rf : Option Nat) (ro : Bool)
    (projectRoot unzipPath : Path) (files : List String) (fs2 : FsNode)
    (p : Path)
    (hok : (finishMove rf ro projectRoot unzipPath files fs2).1 = .okResult p) :
    (finishMove rf ro projectRoot unzipPath files fs2).2.lookup tmpScratchPath
      = none := by
  unfold finishMove at hok ⊢
  cases hm : moveFiles rf projectRoot unzipPath 0 files fs2 with
  | error fsAtThrow =>
    rw [hm] at hok
    have hr : RunOutcome.rejected = RunOutcome.okResult p := hok
    exact nomatch hr
  | ok fs3 =>
    rw [hm] at hok
    cases ro with
    | false =>
      have hr : RunOutcome.rejected = RunOutcome.okResult p := hok
      exact nomatch hr
    | true => exact lookup_removeNode_self _ "tmp" ["itsc2214-unzip-0"]

theorem finishExtraction_ok_tmp (env : RunEnv) (fs : FsNode) (u : Path)
    (p : Path) (hok : (finishExtraction env fs u).1 = .okResult p) :
    (finishExtraction env fs u).2.lookup tmpScratchPath = none := by
  simp only [finishExtraction] at hok ⊢
  exact finishMove_ok_tmp _ _ _ _ _ _ p hok

theorem downloadPhase_ok_tmp (env : RunEnv) (fs : FsNode) (u : Path) (p : Path)
    (hok : (downloadPhase env fs u).1 = .okResult p) :
    (downloadPhase env fs u).2.lookup tmpScratchPath = none := by
  unfold downloadPhase at hok ⊢
  cases hf : env.fetchOk with
  | false =>
    simp only [hf, Bool.not_false, if_true] at hok
    exact nomatch hok
  | true =>
    simp only [hf, Bool.not_true, Bool.false_eq_true, if_false] at hok ⊢
    cases hx : env.extraction with
    | none =>
      rw [hx] at hok
      exact nomatch hok
    | some entries =>
      rw [hx] at hok
      exact finishExtraction_ok_tmp env _ u p hok

/-- **C2 (amended).** On the success path `downloadAndUnzip` does remove the
scratch temp directory: a run that returns the destination path leaves no
scratch artifact at the `mkdtempSync` location.  (The original claim's
guarantee for every failure path is refuted by the counterexample: a
mid-extraction failure leaves the scratch directory on disk.) -/
theorem scratch_removed_on_success_c2_amended (env : RunEnv)
    (itsc2214Dir : Option Path) (label : String) (fs : FsNode) (p : Path)
    (hok : (downloadAndUnzip env itsc2214Dir label fs).1 = .okResult p) :
    (downloadAndUnzip env itsc2214Dir label fs).2.lookup tmpScratchPath
      = none := by
  cases itsc2214Dir with
  | none => exact nomatch hok
  | some base =>
    unfold downloadAndUnzip at hok ⊢
    by_cases hb : fs.pathExists base = true
    swap
    · simp only [hb, Bool.not_false, if_true] at hok
      exact nomatch hok
    · simp only [hb, Bool.not_true, Bool.false_eq_true, if_false] at hok ⊢
      by_cases hdc : (if fs.pathExists (base ++ ["projects"]) = true then fs
          else fs.setNode (base ++ ["projects"]) (.dir [])).pathExists
          (joinName (base ++ ["projects"]) (sanitize label)) = true
      · simp only [hdc, if_true] at hok ⊢
        by_cases hc : env.overwriteChoice = "Yes"
        · simp only [hc, ne_eq, not_true_eq_false, if_false] at hok ⊢
          exact downloadPhase_ok_tmp _ _ _ p hok
        · simp only [ne_eq, hc, not_false_eq_true, if_true] at hok
          exact nomatch hok
      · simp only [hdc, Bool.false_eq_true, if_false] at hok ⊢
        exact downloadPhase_ok_tmp _ _ _ p hok

/-- Concrete instance for C2 (amended): a successful run (single-wrapper
archive) leaves nothing at the scratch location. -/
theorem scratch_removed_on_success_c2_amended_witness :
    (downloadAndUnzip
        ⟨"Yes", true, some [("Foo", .dir [("Main.java", .file "code")])], none, true⟩
        (some ["base"]) "A1" demoBaseFs).2.lookup tmpScratchPath = none :=
  scratch_removed_on_success_c2_amended
    ⟨"Yes", true, some [("Foo", .dir [("Main.java", .file "code")])], none, true⟩
    (some ["base"]) "A1" demoBaseFs ["base", "projects", "A1"] rfl

/-! ### Claim C6: wrapper-directory collapse -/

/-- Initial filesystem for the C6 runs: base and `projects` directory exist,
the destination does not. -/
def demoC6Fs : FsNode :=
  .dir [("base", .dir [("projects", .dir [])]), ("tmp", .dir [])]

/-- The filesystem state mid-run, parameterized by the scratch directory's
content `t` and the destination directory's content `a`. -/
def midFs (t a : FsNode) : FsNode :=
  .dir [("base", .dir [("projects", .dir [("A1", a)])]),
        ("tmp", .dir [("itsc2214-unzip-0", t)])]

theorem lookupEntry_cons_self (k : String) (v : FsNode)
    (es : List (String × FsNode)) : lookupEntry ((k, v) :: es) k = some v := by
  simp [lookupEntry]

theorem lookupEntry_eq_none_of_not_mem {es : List (String × FsNode)}
    {k : String} (h : k ∉ es.map Prod.fst) : lookupEntry es k = none := by
  induction es with
  | nil => rfl
  | cons e es ih =>
    obtain ⟨k', v'⟩ := e
    simp only [List.map_cons, List.mem_cons] at h
    push_neg at h
    rw [lookupEntry, if_neg (fun hh => h.1 hh.symm)]
    exact ih h.2

theorem eraseEntry_of_lookup_none {es : List (String × FsNode)} {k : String}
    (h : lookupEntry es k = none) : eraseEntry es k = es := by
  induction es with
  | nil => rfl
  | cons e es ih =>
    obtain ⟨k', v'⟩ := e
    by_cases hk : k' = k
    · rw [lookupEntry, if_pos hk] at h
      cases h
    · rw [lookupEntry, if_neg hk] at h
      simp only [eraseEntry, List.filter_cons]
      rw [show (!(k' == k)) = true by simp [hk]]
      simp only [if_true]
      rw [show List.filter (fun e => !(e.1 == k)) es = eraseEntry es k from rfl,
        ih h]

theorem eraseEntry_cons_self_of_none {k : String} {v : FsNode}
    {es : List (String × FsNode)} (h : lookupEntry es k = none) :
    eraseEntry ((k, v) :: es) k = es := by
  simp only [eraseEntry, List.filter_cons]
  rw [show (!(k == k)) = false by simp]
  simp only [Bool.false_eq_true, if_false]
  exact eraseEntry_of_lookup_none h

theorem setEntry_append_of_not_mem {es : List (String × FsNode)} {k : String}
    (v : FsNode) (h : k ∉ es.map Prod.fst) : setEntry es k v = es ++ [(k, v)] := by
  induction es with
  | nil => rfl
  | cons e es ih =>
    obtain ⟨k', v'⟩ := e
    simp only [List.map_cons, List.mem_cons] at h
    push_neg at h
    rw [setEntry, if_neg (fun hh => h.1 hh.symm)]
    rw [List.cons_append, ih h.2]

/-- Removing a top-level scratch entry only erases that entry. -/
theorem midFs_remove (es : List (String × FsNode)) (a : FsNode) (name : String) :
    (midFs (.dir es) a).removeNode (tmpScratchPath ++ [name])
      = midFs (.dir (eraseEntry es name)) a := rfl

theorem midFs_exists_macosx (es : List (String × FsNode)) (a : FsNode) :
    (midFs (.dir es) a).pathExists (tmpScratchPath ++ ["__MACOSX"])
      = (lookupEntry es "__MACOSX").isSome := by
  show (match lookupEntry es "__MACOSX" with
    | some c => c.lookup []
    | none => none).isSome = (lookupEntry es "__MACOSX").isSome
  cases lookupEntry es "__MACOSX" <;> rfl

/-- The `._*`-removal loop acts only on the scratch entry list. -/
theorem fold_rm_mid (names : List String) (a : FsNode) :
    ∀ es : List (String × FsNode),
    names.foldl (fun acc name => if jsStartsWith name "._" then
        acc.removeNode (tmpScratchPath ++ [name]) else acc) (midFs (.dir es) a)
    = midFs (.dir (names.foldl (fun es2 name => if jsStartsWith name "._" then
        eraseEntry es2 name else es2) es)) a := by
  induction names with
  | nil => intro es; rfl
  | cons n names ih =>
    intro es
    by_cases hn : jsStartsWith n "._" = true
    · simp only [List.foldl_cons, hn, if_true]
      exact ih (eraseEntry es n)
    · simp only [List.foldl_cons, hn, Bool.false_eq_true, if_false]
      exact ih es

/-- Folding the per-name erases over a name list covering every `._*` key is
the same as filtering those keys out. -/
theorem foldl_erase_dot (names : List String) :
    ∀ es : List (String × FsNode),
    (∀ e ∈ es, jsStartsWith e.1 "._" = true → e.1 ∈ names) →
    names.foldl (fun es2 name => if jsStartsWith name "._" then
        eraseEntry es2 name else es2) es
    = es.filter (fun e => !(jsStartsWith e.1 "._")) := by
  induction names with
  | nil =>
    intro es hcov
    rw [List.foldl_nil]
    induction es with
    | nil => rfl
    | cons e es ih =>
      have hf : jsStartsWith e.1 "._" = false := by
        cases hsw : jsStartsWith e.1 "._" with
        | false => rfl
        | true =>
          exact absurd (hcov e (List.mem_cons_self _ _) hsw)
            (List.not_mem_nil _)
      rw [List.filter_cons]
      simp only [hf, Bool.not_false, if_true]
      rw [← ih fun e2 he2 h2 => hcov e2 (List.mem_cons_of_mem _ he2) h2]
  | cons n names ih =>
    intro es hcov
    rw [List.foldl_cons]
    by_cases hn : jsStartsWith n "._" = true
    · rw [if_pos hn, ih (eraseEntry es n) ?cov]
      case cov =>
        intro e he hsw
        have hm : e ∈ es ∧ ¬(e.1 = n) := by
          have h2 := he
          simp only [eraseEntry, List.mem_filter, Bool.not_eq_eq_eq_not,
            Bool.not_true, beq_eq_false_iff_ne, ne_eq] at h2
          exact h2
        rcases List.mem_cons.mp (hcov e hm.1 hsw) with h | h
        · exact absurd h hm.2
        · exact h
      · unfold eraseEntry
        rw [List.filter_filter]
        apply List.filter_congr
        intro e _he
        by_cases hen : e.1 = n
        · simp [hen, hn]
        · simp [hen]
    · rw [if_neg hn, ih es ?cov2]
      case cov2 =>
        intro e he hsw
        rcases List.mem_cons.mp (hcov e he hsw) with h | h
        · rw [h] at hsw
          exact absurd hsw hn
        · exact h

/-- One `renameSync` of the move loop: the named child leaves the wrapper
directory in the scratch area and is appended to the destination. -/
theorem midFs_move_step (d nm : String) (node : FsNode)
    (rest acc : List (String × FsNode))
    (hnm : lookupEntry rest nm = none)
    (hacc : nm ∉ acc.map Prod.fst) :
    renameNode (midFs (.dir [(d, .dir ((nm, node) :: rest))]) (.dir acc))
        ((tmpScratchPath ++ [d]) ++ [nm]) (["base", "projects", "A1"] ++ [nm])
    = midFs (.dir [(d, .dir rest)]) (.dir (acc ++ [(nm, node)])) := by
  have hsrc : (midFs (.dir [(d, .dir ((nm, node) :: rest))]) (.dir acc)).lookup
      ((tmpScratchPath ++ [d]) ++ [nm]) = some node := by
    show (FsNode.dir [(d, FsNode.dir ((nm, node) :: rest))]).lookup (d :: [nm])
        = some node
    simp only [lookup_cons_dir, lookupEntry_cons_self]
    rfl
  have hrm : ∀ t a : FsNode,
      (midFs t a).removeNode ((tmpScratchPath ++ [d]) ++ [nm])
        = midFs (t.removeNode (d :: [nm])) a := fun t a => rfl
  have hcore : (FsNode.dir [(d, FsNode.dir ((nm, node) :: rest))]).removeNode
      (d :: [nm]) = .dir [(d, .dir rest)] := by
    simp only [removeNode_cons_dir, lookupEntry_cons_self, removeNode_single_dir,
      eraseEntry_cons_self_of_none hnm, setEntry, if_pos]
  have hset : ∀ t : FsNode,
      (midFs t (.dir acc)).setNode (["base", "projects", "A1"] ++ [nm]) node
        = midFs t (.dir (setEntry acc nm node)) := fun t => rfl
  unfold renameNode
  rw [hsrc, hrm, hcore]
  show (midFs (FsNode.dir [(d, FsNode.dir rest)]) (FsNode.dir acc)).setNode
      (["base", "projects", "A1"] ++ [nm]) node = _
  rw [hset, setEntry_append_of_not_mem node hacc]

/-- The move loop empties the wrapper and fills the destination in order. -/
theorem fold_move_mid (d : String) :
    ∀ (inner acc : List (String × FsNode)),
    ((acc ++ inner).map Prod.fst).Nodup →
    (inner.map Prod.fst).foldl (fun acc2 name =>
        renameNode acc2 ((tmpScratchPath ++ [d]) ++ [name])
          (["base", "projects", "A1"] ++ [name]))
        (midFs (.dir [(d, .dir inner)]) (.dir acc))
    = midFs (.dir [(d, .dir [])]) (.dir (acc ++ inner)) := by
  intro inner
  induction inner with
  | nil =>
    intro acc _h
    rw [List.map_nil, List.foldl_nil, List.append_nil]
  | cons e rest ih =>
    obtain ⟨nm, node⟩ := e
    intro acc hnd
    rw [List.map_cons, List.foldl_cons]
    have hkeys : (acc.map Prod.fst ++ nm :: rest.map Prod.fst).Nodup := by
      simpa using hnd
    have hacc : nm ∉ acc.map Prod.fst := by
      intro hmem
      exact List.disjoint_of_nodup_append hkeys hmem (List.mem_cons_self _ _)
    have hnm : lookupEntry rest nm = none := by
      apply lookupEntry_eq_none_of_not_mem
      exact (List.nodup_cons.mp (List.nodup_append.mp hkeys).2.1).1
    rw [midFs_move_step d nm node rest acc hnm hacc]
    have hnd2 : (((acc ++ [(nm, node)]) ++ rest).map Prod.fst).Nodup := by
      rw [List.append_assoc, List.singleton_append]
      exact hnd
    rw [ih (acc ++ [(nm, node)]) hnd2, List.append_assoc, List.singleton_append]

/-- The `finish` handler on a scratch directory whose content, after
platform-metadata removal, is a single wrapper directory: the wrapper's
children end up directly at the destination. -/
theorem finishExtraction_collapse (env : RunEnv)
    (entries : List (String × FsNode))
    (d : String) (inner : List (String × FsNode))
    (hclean : entries.filter (fun e => !(e.1 == "__MACOSX")
        && !(jsStartsWith e.1 "._")) = [(d, .dir inner)])
    (hnd : (inner.map Prod.fst).Nodup)
    (hrf : env.renameFailAt = none) (hro : env.finalRmOk = true) :
    finishExtraction env (midFs (.dir entries) (.dir []))
        ["base", "projects", "A1"]
    = (.okResult ["base", "projects", "A1"],
       .dir [("base", .dir [("projects", .dir [("A1", .dir inner)])]),
             ("tmp", .dir [])]) := by
  have hes1 : (if (midFs (.dir entries) (.dir [])).pathExists
        (tmpScratchPath ++ ["__MACOSX"]) = true then
        (midFs (.dir entries) (.dir [])).removeNode
          (tmpScratchPath ++ ["__MACOSX"])
      else midFs (.dir entries) (.dir []))
      = midFs (.dir (eraseEntry entries "__MACOSX")) (.dir []) := by
    rw [midFs_exists_macosx]
    cases hmac : lookupEntry entries "__MACOSX" with
    | none =>
      rw [eraseEntry_of_lookup_none hmac]
      simp
    | some c =>
      simp [midFs_remove]
  have hcov : ∀ e ∈ eraseEntry entries "__MACOSX",
      jsStartsWith e.1 "._" = true → e.1 ∈ entries.map Prod.fst := by
    intro e he _
    have hmem : e ∈ entries := by
      have h2 := he
      unfold eraseEntry at h2
      exact List.mem_of_mem_filter h2
    exact List.mem_map_of_mem _ hmem
  have hes2 : (entries.map Prod.fst).foldl (fun acc name =>
      if jsStartsWith name "._" = true then
        acc.removeNode (tmpScratchPath ++ [name]) else acc)
      (midFs (.dir (eraseEntry entries "__MACOSX")) (.dir []))
      = midFs (.dir [(d, .dir inner)]) (.dir []) := by
    rw [fold_rm_mid, foldl_erase_dot _ _ hcov]
    have hflt : (eraseEntry entries "__MACOSX").filter
        (fun e => !(jsStartsWith e.1 "._")) = [(d, FsNode.dir inner)] := by
      unfold eraseEntry
      rw [List.filter_filter, ← hclean]
      apply List.filter_congr
      intro e _
      rw [Bool.and_comm]
    rw [hflt]
  have hdir : (midFs (.dir [(d, .dir inner)]) (.dir [])).isDirAt
      (tmpScratchPath ++ [d]) = true := by
    show (match (FsNode.dir [(d, FsNode.dir inner)]).lookup [d] with
      | some (.dir _) => true
      | _ => false) = true
    simp only [lookup_cons_dir, lookupEntry_cons_self]
    rfl
  have hpf : (midFs (.dir [(d, .dir inner)]) (.dir [])).readdir
      (tmpScratchPath ++ [d]) = inner.map Prod.fst := by
    show (match (FsNode.dir [(d, FsNode.dir inner)]).lookup [d] with
      | some (.dir es) => es.map Prod.fst
      | _ => []) = inner.map Prod.fst
    simp only [lookup_cons_dir, lookupEntry_cons_self]
    rfl
  have hmove := fold_move_mid d inner [] (by simpa using hnd)
  rw [List.nil_append] at hmove
  simp only [finishExtraction]
  rw [show (midFs (.dir entries) (.dir [])).readdir tmpScratchPath
      = entries.map Prod.fst from rfl]
  rw [hes1, hes2]
  rw [show (midFs (.dir [(d, .dir inner)]) (.dir [])).readdir tmpScratchPath
      = [d] from rfl]
  rw [show ([d] : List String).headD "" = d from rfl]
  rw [show (([d] : List String).length == 1) = true from rfl]
  rw [Bool.true_and, hdir]
  rw [if_pos (rfl : (true : Bool) = true)]
  rw [hpf, hrf, hro]
  simp only [finishMove]
  rw [moveFiles_none, hmove]
  rfl

/-- **C6.** For every run whose downloaded archive extracts — after
platform-metadata removal (`__MACOSX`, top-level `._*` entries) — to exactly
one top-level directory wrapping all content, the wrapper is collapsed: the
run succeeds and the wrapped entries appear directly at the destination
root, not nested one level down under the wrapper's name. -/
theorem wrapper_collapsed_c6 (entries : List (String × FsNode)) (d : String)
    (inner : List (String × FsNode))
    (hclean : entries.filter (fun e => !(e.1 == "__MACOSX")
        && !(jsStartsWith e.1 "._")) = [(d, .dir inner)])
    (hnd : (inner.map Prod.fst).Nodup) :
    (downloadAndUnzip ⟨"Yes", true, some entries, none, true⟩ (some ["base"]) "A1"
        demoC6Fs).1 = .okResult ["base", "projects", "A1"]
    ∧ (downloadAndUnzip ⟨"Yes", true, some entries, none, true⟩ (some ["base"]) "A1"
        demoC6Fs).2.lookup ["base", "projects", "A1"]
      = some (.dir inner) := by
  have hrun : downloadAndUnzip ⟨"Yes", true, some entries, none, true⟩ (some ["base"])
      "A1" demoC6Fs
      = finishExtraction ⟨"Yes", true, some entries, none, true⟩
          (midFs (.dir entries) (.dir [])) ["base", "projects", "A1"] := rfl
  rw [hrun, finishExtraction_collapse ⟨"Yes", true, some entries, none, true⟩
    entries d inner hclean hnd rfl rfl]
  exact ⟨rfl, rfl⟩

/-- Concrete instance for C6: an archive with platform metadata and a single
wrapper `Foo/` ends up with `Foo`'s children directly at the destination. -/
theorem wrapper_collapsed_c6_witness :
    (downloadAndUnzip ⟨"Yes", true, some
        [("__MACOSX", .dir [("x", .file "m")]), ("._junk", .file ""),
         ("Foo", .dir [("Main.java", .file "code"), ("lib", .dir [])])],
        none, true⟩
        (some ["base"]) "A1" demoC6Fs).1
      = .okResult ["base", "projects", "A1"]
    ∧ (downloadAndUnzip ⟨"Yes", true, some
        [("__MACOSX", .dir [("x", .file "m")]), ("._junk", .file ""),
         ("Foo", .dir [("Main.java", .file "code"), ("lib", .dir [])])],
        none, true⟩
        (some ["base"]) "A1" demoC6Fs).2.lookup ["base", "projects", "A1"]
      = some (.dir [("Main.java", .file "code"), ("lib", .dir [])]) :=
  wrapper_collapsed_c6
    [("__MACOSX", .dir [("x", .file "m")]), ("._junk", .file ""),
     ("Foo", .dir [("Main.java", .file "code"), ("lib", .dir [])])]
    "Foo" [("Main.java", .file "code"), ("lib", .dir [])] rfl (by decide)

/-! ## Submission-response handling (`uploadItem`, uploadProvider.ts) -/

/-- A user-visible notification shown through `vscode.window`. -/
inductive Notification where
  | info (msg : String)
  | warning (msg : String)
  | error (msg : String)

/-- Whether `seg` can stand between `<a` and `href="` in the regex
`/<a\s+(?:[^>]*?\s+)?href="([^"]*)"/`: such a segment is `\s+` or
`\s+[^>]*?\s`, i.e. nonempty, starting and ending with a `\s` character and
containing no `>`. -/
def anchorGapOk (seg : List Char) : Bool :=
  (match seg.head? with
    | some c => isJsWhitespace c
    | none => false)
  && (match seg.getLast? with
    | some c => isJsWhitespace c
    | none => false)
  && seg.all fun c => !(c == '>')

/-- Scan for the nearest `href="` preceded by an admissible gap (the lazy
optional group takes the shortest admissible split); the capture `[^"]*`
must be terminated by a closing quote. -/
def findHrefSplit : List Char → List Char → Option (List Char)
  | rest, segAcc =>
    if charsLeadWith rest ('h' :: 'r' :: 'e' :: 'f' :: '=' :: '"' :: [])
        && anchorGapOk segAcc.reverse
        && (rest.drop 6).contains '"' then
      some ((rest.drop 6).takeWhile fun c => !(c == '"'))
    else
      match rest with
      | [] => none
      | c :: rs => findHrefSplit rs (c :: segAcc)

/-- Try the anchor regex at this position. -/
def matchAnchorAt (cs : List Char) : Option (List Char) :=
  if charsLeadWith cs ('<' :: 'a' :: []) then findHrefSplit (cs.drop 2) []
  else none

/-- `html.match(/<a\s+(?:[^>]*?\s+)?href="([^"]*)"/)`: the capture of the
leftmost match. -/
def firstAnchorHref : List Char → Option (List Char)
  | [] => none
  | c :: rest =>
    match matchAnchorAt (c :: rest) with
    | some cap => some cap
    | none => firstAnchorHref rest

def firstAnchorHrefStr (html : String) : Option String :=
  (firstAnchorHref html.data).map fun l => ⟨l⟩

/-- JS truthiness of `resultsUrl = match ? match[1] : undefined`: the guard
of `if (resultsUrl)` is false both for `undefined` (no match) and for an
empty captured string (`""` is falsy). -/
def resultsUrlTruthy : Option String → Bool
  | none => false
  | some url => !(url == "")

/-- The end of `uploadItem`'s action after the POST: scrape the first
anchor's `href` from the response body as the results URL; when that URL is
truthy, show the success dialog, and otherwise call `showErrorMessage` — the
flow completes normally either way (the run is never failed over a missing
results URL). -/
def submitResponseAction (html : String) : Option String × Notification :=
  let resultsUrl := firstAnchorHrefStr html
  if resultsUrlTruthy resultsUrl then
    (resultsUrl, .info
      "WebCAT submission successful. You can view the results in your browser.")
  else
    (resultsUrl, .error
      "Could not find submission results URL. Please check the WebCAT website directly.")

/-- **C9 counterexample.** On a success response whose body contains no
anchor, the condition is reported through `showErrorMessage` — an error
notification, not the soft warning the claim states. -/
theorem results_url_error_not_warning_c9_counterexample :
    submitResponseAction
        "<html><body>Submission received. Thank you.</body></html>"
      = (none, .error
          "Could not find submission results URL. Please check the WebCAT website directly.")
    ∧ ∀ msg, (submitResponseAction
        "<html><body>Submission received. Thank you.</body></html>").2
        ≠ .warning msg :=
  ⟨rfl, fun _ h => nomatch h⟩

/-- **C9 (amended).** For every submission whose POST succeeds, the results
URL is the href captured from the first HTML anchor of the response body,
and when that capture is a nonempty string the success dialog carries it;
when no anchor is found — or the captured href is the empty string, which
is falsy in JS so `if (resultsUrl)` fails — the submission is still not
treated as failed (the handler completes normally), but the condition is
reported with an error notification (`showErrorMessage`), not a soft
warning. -/
theorem results_url_first_anchor_c9_amended (html : String) :
    (∀ url, firstAnchorHrefStr html = some url → url ≠ "" →
      submitResponseAction html = (some url, .info
        "WebCAT submission successful. You can view the results in your browser."))
    ∧ (firstAnchorHrefStr html = none →
      submitResponseAction html = (none, .error
        "Could not find submission results URL. Please check the WebCAT website directly."))
    ∧ (firstAnchorHrefStr html = some "" →
      submitResponseAction html = (some "", .error
        "Could not find submission results URL. Please check the WebCAT website directly.")) := by
  refine ⟨?_, ?_, ?_⟩
  · intro url h hne
    simp [submitResponseAction, resultsUrlTruthy, h, hne]
  · intro h
    simp [submitResponseAction, resultsUrlTruthy, h]
  · intro h
    simp [submitResponseAction, resultsUrlTruthy, h]

/-- Concrete instances for C9 (amended): a body with one anchor holding a
nonempty href yields it as the results URL; a body without an anchor yields
the error notice; a body whose first anchor has an empty href also yields
the error notice. -/
theorem results_url_first_anchor_c9_amended_witness :
    submitResponseAction
        "<html><a href=\"https://webcat.example/results/1\">View</a></html>"
      = (some "https://webcat.example/results/1", .info
          "WebCAT submission successful. You can view the results in your browser.")
    ∧ submitResponseAction "<html><body>ok</body></html>"
      = (none, .error
          "Could not find submission results URL. Please check the WebCAT website directly.")
    ∧ submitResponseAction "<a href=\"\">no url</a>"
      = (some "", .error
          "Could not find submission results URL. Please check the WebCAT website directly.") :=
  ⟨(results_url_first_anchor_c9_amended _).1 "https://webcat.example/results/1"
      rfl (by decide),
   (results_url_first_anchor_c9_amended _).2.1 rfl,
   (results_url_first_anchor_c9_amended _).2.2 rfl⟩

/-! ## Flat-JSON assignment fetch (`AssignmentProvider`, projectDownload.ts) -/

/-- The result shape of `fetchSite`: a site label and the package list. -/
structure SnarfSite where
  label : String
  packages : List JsVal

/-- `AssignmentProvider.fetchSite` (flat-JSON revision): a non-ok response
or a JSON body that is not an array produces an error message and the
distinguished `Error` placeholder; an array body becomes the package
list. -/
def fetchSite (url : String) (respOk : Bool) (body : JsVal) :
    SnarfSite × List Notification :=
  if !respOk then
    (⟨"Error", []⟩, [.error ("Failed to fetch assignments from " ++ url
      ++ ". Check the URL and your internet connection.")])
  else
    match body with
    | .arr xs => (⟨"Available Assignments", xs⟩, [])
    | _ =>
      (⟨"Error", []⟩, [.error
        "Invalid assignment data format: Expected an array of assignments."])

/-- A leaf of the assignment tree: `new AssignmentTreeItem(pkg.label, ...,
pkg)`. -/
structure AssignmentNode where
  label : JsVal
  itemData : JsVal

/-- The root node returned by `fetchData`. -/
structure AssignmentRootNode where
  label : String
  children : List AssignmentNode

/-- `AssignmentProvider.fetchData` (flat-JSON revision): warn when no URL is
configured, otherwise wrap the fetched packages — sorted by label with the
UI comparator (`localeCompare`, abstracted as `sortByLabel`) — under a
single root labelled by the site. -/
def fetchDataFlat (downloadURL : Option String) (respOk : Bool) (body : JsVal)
    (sortByLabel : List AssignmentNode → List AssignmentNode) :
    List AssignmentRootNode × List Notification :=
  match downloadURL with
  | none => ([], [.warning "Assignment download URL is not configured."])
  | some url =>
    let result := fetchSite url respOk body
    ([⟨result.1.label,
        sortByLabel (result.1.packages.map fun pkg => ⟨pkg.get "label", pkg⟩)⟩],
      result.2)

/-- **C10.** When the HTTP response succeeds but the body parses to a JSON
value that is not an array, `fetchSite` does not throw: it reports the
malformed format and returns the distinguished placeholder (label `Error`,
empty package list), and `fetchData` presents a single explicit `Error`
root node with no children instead of crashing or showing nothing. -/
theorem flat_json_non_array_error_c10 (url : String) (body : JsVal)
    (hnot : ∀ xs, body ≠ .arr xs)
    (sortByLabel : List AssignmentNode → List AssignmentNode)
    (hsort : sortByLabel [] = []) :
    fetchSite url true body = (⟨"Error", []⟩, [.error
      "Invalid assignment data format: Expected an array of assignments."])
    ∧ fetchDataFlat (some url) true body sortByLabel
      = ([⟨"Error", []⟩], [.error
        "Invalid assignment data format: Expected an array of assignments."]) := by
  have h1 : fetchSite url true body = (⟨"Error", []⟩, [.error
      "Invalid assignment data format: Expected an array of assignments."]) := by
    unfold fetchSite
    cases body with
    | arr xs => exact absurd rfl (hnot xs)
    | undefined => rfl
    | nullv => rfl
    | boolean b => rfl
    | num n => rfl
    | str s => rfl
    | obj fields => rfl
  refine ⟨h1, ?_⟩
  simp only [fetchDataFlat]
  rw [h1]
  simp [hsort]

/-- Concrete instance for C10: an object body (valid JSON, not an array)
yields the `Error` placeholder and the explicit error root node. -/
theorem flat_json_non_array_error_c10_witness :
    fetchSite "https://x/snarf.json" true (.obj [("oops", .str "x")])
      = (⟨"Error", []⟩, [.error
        "Invalid assignment data format: Expected an array of assignments."])
    ∧ fetchDataFlat (some "https://x/snarf.json") true
        (.obj [("oops", .str "x")]) id
      = ([⟨"Error", []⟩], [.error
        "Invalid assignment data format: Expected an array of assignments."]) :=
  flat_json_non_array_error_c10 "https://x/snarf.json"
    (.obj [("oops", .str "x")]) (fun _ h => nomatch h) id rfl

end ITSC2214
